import Mathlib

/-!
Verification development for the baseline-filtering / configuration /
pro-session core of the `phpstan-vscode` language server.

The definitions below are shallow embeddings of the TypeScript source:
* the suppression engine (`matchesStringOrRegexp`, `isIgnored`,
  `filterBaselineErrorsForFile` and its inner loop),
* configuration resolution (`getPHPStanConfig`, `getErrorsToIgnore`,
  with `deepObjectJoin` modelled from the spec because `shared/util` is
  not part of the sources),
* the cached config reader (`CachedFileReader`),
* the pro-launch stdout handler of `launchPro` (progress-marker regex,
  readiness marker, tmp-folder check),
* a reference-level (heap) model of the filter pass that makes the
  `{...err}` shallow-copy step explicit.
-/

namespace PhpstanVscode

/-- JS `target.includes(sub)`: substring containment on the character list. -/
def strIncludes (target sub : String) : Bool :=
  decide (List.IsInfix sub.toList target.toList)

/-- JS truthiness of an optional string value: `undefined` and the empty
string are falsy, every other string is truthy. -/
def truthyStr : Option String → Bool
  | none => false
  | some s => !s.isEmpty

/-- JS truthiness of an optional number (`count` field): `undefined` and `0`
are falsy, every other integer is truthy. -/
def truthyCount : Option Int → Bool
  | none => false
  | some n => decide (n ≠ 0)

/-- A message matcher: a plain string entry (substring match) or a `RegExp`
entry, whose `test` method is embedded as an abstract boolean predicate. -/
inductive Matcher
  | str (s : String)
  | regexp (test : String → Bool)

/-- Source `matchesStringOrRegexp(target, matcher)`. -/
def matchesStringOrRegexp (target : String) : Matcher → Bool
  | Matcher.str s => strIncludes target s
  | Matcher.regexp t => t target

/-- The object form of `PHPStanIgnoreError`:
`{ message, count?, path?, paths? }`.  `count` is a JS number, embedded as
`Option Int` (`none` = field absent). -/
structure StructuredRule where
  message : Matcher
  count : Option Int
  path : Option String
  paths : Option (List String)

/-- One entry of `parameters.ignoreErrors` as it reaches the filter:
a plain string or `RegExp` (`plain`), an object rule (`structured`),
a parse failure (`InvalidNeonValue`, carrying the source text), or the
JS value `undefined`. -/
inductive IgnoreEntry
  | plain (m : Matcher)
  | structured (r : StructuredRule)
  | invalid (source : String)
  | undef

/-- A diagnostic; only `message` is ever inspected by this module, `range`
stands in for the remaining (opaque) fields. -/
structure Diagnostic where
  message : String
  range : Nat
deriving DecidableEq, Repr

/-- Source `isIgnored(error, ignoredErrors)`.  The in-place mutation of the
rule array (the `ignoredError.count--`) is embedded by returning the updated
rule list next to the boolean.  `invalid` and `undef` entries never reach
this function (they are removed by the applicability filter in
`filterBaselineErrorsForFile`; in JS they would fall through the
`typeof` checks or crash), so they are embedded as non-matching. -/
def isIgnored (msg : String) : List IgnoreEntry → Bool × List IgnoreEntry
  | [] => (false, [])
  | IgnoreEntry.plain m :: rest =>
    if matchesStringOrRegexp msg m then
      (true, IgnoreEntry.plain m :: rest)
    else
      let p := isIgnored msg rest
      (p.1, IgnoreEntry.plain m :: p.2)
  | IgnoreEntry.structured r :: rest =>
    -- `typeof ignoredError.count === 'number' && !ignoredError.count` → skip
    if r.count = some 0 then
      let p := isIgnored msg rest
      (p.1, IgnoreEntry.structured r :: p.2)
    else if matchesStringOrRegexp msg r.message then
      -- `if (ignoredError.count) { ignoredError.count--; }`
      let r' := if truthyCount r.count then
          { r with count := r.count.map (fun c => c - 1) }
        else r
      (true, IgnoreEntry.structured r' :: rest)
    else
      let p := isIgnored msg rest
      (p.1, IgnoreEntry.structured r :: p.2)
  | IgnoreEntry.invalid s :: rest =>
    let p := isIgnored msg rest
    (p.1, IgnoreEntry.invalid s :: p.2)
  | IgnoreEntry.undef :: rest =>
    let p := isIgnored msg rest
    (p.1, IgnoreEntry.undef :: p.2)

/-- The applicability filter of `filterBaselineErrorsForFile` (the
`.filter((error) => ...)` callback).  Note the duplicated condition
`!error.path && !error.path` taken verbatim from the source (line 195);
the second conjunct reads `path` again, not `paths`. -/
def entryMatchesFile (originalFilePath : String) : IgnoreEntry → Bool
  | IgnoreEntry.undef => false
  | IgnoreEntry.plain _ => true
  | IgnoreEntry.invalid _ => false
  | IgnoreEntry.structured r =>
    if !truthyStr r.path && !truthyStr r.path then
      true
    else
      let paths := match r.paths with
        | some ps => ps
        | none => [r.path.getD ""]
      paths.any (fun errorPath => strIncludes originalFilePath errorPath)

/-- The `.map((err) => typeof err === 'object' ? { ...err } : err)` step.
On values a shallow copy is the identity; the reference-level model below
(`RefModel`) makes the fresh allocation explicit. -/
def shallowCopy (e : IgnoreEntry) : IgnoreEntry := e

/-- The `for (const error of errors)` loop of `filterBaselineErrorsForFile`:
threads the (mutated) rule list through `isIgnored` and collects the
diagnostics that are not ignored, in order. -/
def filterLoop : List IgnoreEntry → List Diagnostic → List Diagnostic × List IgnoreEntry
  | rules, [] => ([], rules)
  | rules, d :: ds =>
    let p := isIgnored d.message rules
    let q := filterLoop p.2 ds
    (if p.1 then q.1 else d :: q.1, q.2)

/-- The pure core of `filterBaselineErrorsForFile`, after the ignore rules
have been resolved: applicability filter, shallow copy, then the filter
loop. -/
def filterCore (ignoreErrors : List IgnoreEntry) (originalFilePath : String)
    (errors : List Diagnostic) : List Diagnostic :=
  let matchingErrors :=
    (ignoreErrors.filter (entryMatchesFile originalFilePath)).map shallowCopy
  (filterLoop matchingErrors errors).1

/-- The `parameters` block of a parsed neon config document; only the
`ignoreErrors` key is inspected by this module. -/
structure Parameters where
  ignoreErrors : Option (List IgnoreEntry)

/-- A parsed neon config document (`PHPStanConfig`). -/
structure PHPStanConfig where
  includes : Option (List String)
  parameters : Option Parameters

/-- Source `file.parameters?.ignoreErrors ?? []`. -/
def ignoreErrorsOf (c : PHPStanConfig) : List IgnoreEntry :=
  (c.parameters.bind Parameters.ignoreErrors).getD []

/-- Merge of one optional sequence-valued key: later-merged entries are
appended after earlier ones. -/
def joinSeq {α : Type} : Option (List α) → Option (List α) → Option (List α)
  | none, b => b
  | some a, none => some a
  | some a, some b => some (a ++ b)

/-- Modelled from the spec: `deepObjectJoin` lives in `shared/util`, which is
not among the sources.  Per the spec, it deep-merges two documents: scalar
keys from the later document overwrite earlier ones and sequence-valued keys
(`includes`, `ignoreErrors`) are concatenated, not overwritten. -/
def deepObjectJoin (a b : PHPStanConfig) : PHPStanConfig :=
  { includes := joinSeq a.includes b.includes
    parameters :=
      match a.parameters, b.parameters with
      | none, p => p
      | some pa, none => some pa
      | some pa, some pb => some ⟨joinSeq pa.ignoreErrors pb.ignoreErrors⟩ }

/-- Source `getPHPStanConfig`.  `fs` stands for
`parseNeonFile(await readConfigFile(path))` (file system plus neon parser,
both outside this module's algorithm), and `resolveInclude` stands for
`path.join(path.dirname(configFile), include)` (Node's path library).
The `for (const inc of entrypointFile.includes)` loop iterates over the
array captured from the root document before any reassignment of
`entrypointFile`, hence the fold over `entrypointFile.includes` only. -/
def getPHPStanConfig (fs : String → PHPStanConfig)
    (resolveInclude : String → String → String) (configFile : String) :
    PHPStanConfig :=
  let entrypointFile := fs configFile
  match entrypointFile.includes with
  | none => entrypointFile
  | some incs =>
    incs.foldl
      (fun acc inc => deepObjectJoin acc (fs (resolveInclude configFile inc)))
      entrypointFile

/-- The slice of `CheckConfig` used by this module. -/
structure CheckConfig where
  configFile : Option String

/-- Source `getErrorsToIgnore`. -/
def getErrorsToIgnore (fs : String → PHPStanConfig)
    (resolveInclude : String → String → String) (checkConfig : CheckConfig) :
    List IgnoreEntry :=
  match checkConfig.configFile with
  | none => []
  | some f => ignoreErrorsOf (getPHPStanConfig fs resolveInclude f)

/-- Source `filterBaselineErrorsForFile`: resolve the ignore rules from the
configuration, then run the pure filter core. -/
def filterBaselineErrorsForFile (fs : String → PHPStanConfig)
    (resolveInclude : String → String → String) (checkConfig : CheckConfig)
    (originalFilePath : String) (errors : List Diagnostic) : List Diagnostic :=
  filterCore (getErrorsToIgnore fs resolveInclude checkConfig)
    originalFilePath errors

/-- The mutable fields of the `CachedFileReader` class.  `watcher` records
whether an `fs.watchFile` stat watcher is attached. -/
structure CachedFileReader where
  cachedValue : Option String
  watching : Bool
  watcher : Bool
deriving DecidableEq, Repr

/-- A freshly constructed reader (`_cachedValue = null`, `_watching = false`,
`_watcher = null`). -/
def CachedFileReader.init : CachedFileReader :=
  { cachedValue := none, watching := false, watcher := false }

/-- Source `_initWatcher`.  Note that the source never assigns
`this._watching = true`, so the early-return guard never fires and a watcher
is (re-)registered on every cache miss. -/
def CachedFileReader.initWatcher (r : CachedFileReader) : CachedFileReader :=
  if r.watching then r else { r with watcher := true }

/-- Source `read()`.  `diskContent` is the current content of the file on
disk; the third component records whether the disk was read
(`fsPromises.readFile`) during this call.  The cache hit test is the JS
truthiness check `if (this._cachedValue)`, under which a cached empty string
counts as a miss. -/
def CachedFileReader.read (diskContent : String) (r : CachedFileReader) :
    String × CachedFileReader × Bool :=
  if truthyStr r.cachedValue then
    (r.cachedValue.getD "", r, false)
  else
    let r1 := r.initWatcher
    (diskContent, { r1 with cachedValue := some diskContent }, true)

/-- The `fs.watchFile` callback: `this._cachedValue = null`. -/
def CachedFileReader.watcherFires (r : CachedFileReader) : CachedFileReader :=
  { r with cachedValue := none }

/-- The progress record passed to `onProgress`. -/
structure ProgressRecord where
  done : Nat
  total : Nat
  percentage : Nat
deriving DecidableEq, Repr

/-- JS `\s` restricted to the ASCII range (the inputs handled here are
ASCII process output). -/
def jsWhitespace (c : Char) : Bool :=
  c = ' ' || c = '\t' || c = '\n' || c = '\r' || c = '\x0b' || c = '\x0c'

/-- JS `.` without the `s` flag: any character except a line terminator. -/
def jsDot (c : Char) : Bool :=
  !(c = '\n' || c = '\r')

/-- Greedy `p+`: the maximal non-empty run of characters satisfying `p`,
with the remainder.  For the pattern at hand the character class of each
`+` is disjoint from the character required next, so greedy matching with
no backtracking is exact. -/
def takeWhile1 (p : Char → Bool) (cs : List Char) :
    Option (List Char × List Char) :=
  match cs.takeWhile p with
  | [] => none
  | run => some (run, cs.drop run.length)

/-- Require one literal character. -/
def expectChar (c : Char) : List Char → Option (List Char)
  | [] => none
  | x :: rest => if x = c then some rest else none

/-- JS `parseInt(digits, 10)` on an all-digit capture. -/
def digitsToNat (ds : List Char) : Nat :=
  ds.foldl (fun n c => 10 * n + (c.toNat - 48)) 0

/-- The `\s+(\d+)%` tail of the progress pattern. -/
def matchTailPct (cs : List Char) : Option (List Char × List Char) := do
  let (_ws, r1) ← takeWhile1 jsWhitespace cs
  let (d, r2) ← takeWhile1 Char.isDigit r1
  let r3 ← expectChar '%' r2
  pure (d, r3)

/-- The lazy `.*?\]` part followed by the tail: try the closing bracket at
the nearest position first and extend the lazy run (over `.`-matching
characters only) when the tail fails, exactly as regex backtracking does. -/
def matchCloseAndTail : List Char → Option (List Char × List Char)
  | [] => none
  | c :: rest =>
    match (if c = ']' then matchTailPct rest else none) with
    | some r => some r
    | none => if jsDot c then matchCloseAndTail rest else none

/-- One anchored attempt of `/(\d+)\/(\d+)\s+\[.*?\]\s+(\d+)%/` at the head
of `cs`; on success returns the parsed record and the remainder after the
match. -/
def matchProgressAt (cs : List Char) : Option (ProgressRecord × List Char) := do
  let (d1, r1) ← takeWhile1 Char.isDigit cs
  let r2 ← expectChar '/' r1
  let (d2, r3) ← takeWhile1 Char.isDigit r2
  let (_ws, r4) ← takeWhile1 jsWhitespace r3
  let r5 ← expectChar '[' r4
  let (d3, r6) ← matchCloseAndTail r5
  pure (⟨digitsToNat d1, digitsToNat d2, digitsToNat d3⟩, r6)

/-- Left-to-right global scan (`String.prototype.matchAll`): try the pattern
at each position, and continue after the end of each match.  The fuel is the
input length; a successful match always consumes at least one character, so
the fuel never runs out before the input does. -/
def matchAllProgressAux : Nat → List Char → List ProgressRecord
  | 0, _ => []
  | _ + 1, [] => []
  | fuel + 1, c :: rest =>
    match matchProgressAt (c :: rest) with
    | some (m, rest') => m :: matchAllProgressAux fuel rest'
    | none => matchAllProgressAux fuel rest

/-- Source `[...line.matchAll(/(\d+)\/(\d+)\s+\[.*?\]\s+(\d+)%/g)]`, each
match reduced to its three parsed capture groups. -/
def matchAllProgress (line : String) : List ProgressRecord :=
  matchAllProgressAux line.toList.length line.toList

/-- What one invocation of the `proc.stdout.on('data', ...)` handler in
`launchPro` does with a chunk. -/
inductive LaunchOutcome
  | progressReported (p : ProgressRecord)
  | resolvedError (cause : String)
  | resolvedSuccess (configDirPath : String)
  | noAction
deriving DecidableEq, Repr

/-- Source `path.join(tmpPath, 'phpstan-fixer')`. -/
def proConfigDirPath (tmpPath : String) : String :=
  tmpPath ++ "/phpstan-fixer"

/-- The stdout chunk handler of `launchPro` (pro.ts lines 67-113).
`hasOnProgress` records whether an `onProgress` callback was supplied and
`folderExists` is the result of the `pathExists(configDirPath)` check
performed after the 100 ms grace wait.  Resolution of the launch promise is
the returned outcome; the `log` side effect is not modelled. -/
def launchProHandleStdout (hasOnProgress folderExists : Bool)
    (tmpPath chunk : String) : LaunchOutcome :=
  let progressMatch := matchAllProgress chunk
  if hasOnProgress && !progressMatch.isEmpty then
    LaunchOutcome.progressReported (progressMatch.getLastD ⟨0, 0, 0⟩)
  else if strIncludes chunk "Open your web browser at:" then
    if !folderExists then
      LaunchOutcome.resolvedError
        "Failed to launch PHPStan Pro (tmp folder does not exist)"
    else
      LaunchOutcome.resolvedSuccess (proConfigDirPath tmpPath)
  else
    LaunchOutcome.noAction

namespace RefModel

/-- Reference-level model of the same filter pass, with JS object identity
made explicit.  Only the `count` field of a rule object is ever mutated, so
the heap stores one `count` cell per rule object; every other field is
immutable and kept inline.  A heap cell holds the JS value of the `count`
field (`none` = field absent). -/
abbrev Heap := List (Option Int)

/-- A structured rule object: the immutable fields inline, the mutable
`count` field as a reference into the heap. -/
structure RuleObj where
  message : Matcher
  cell : Nat
  path : Option String
  paths : Option (List String)

/-- One `ignoreErrors` entry at reference level. -/
inductive Entry
  | plain (m : Matcher)
  | structured (r : RuleObj)
  | invalid (source : String)
  | undef

/-- Read an entry through the heap, producing the value-level entry it
currently denotes. -/
def derefEntry (heap : Heap) : Entry → IgnoreEntry
  | Entry.plain m => IgnoreEntry.plain m
  | Entry.invalid s => IgnoreEntry.invalid s
  | Entry.undef => IgnoreEntry.undef
  | Entry.structured r =>
    IgnoreEntry.structured ⟨r.message, heap.getD r.cell none, r.path, r.paths⟩

/-- The cells referenced by a list of entries. -/
def cellsOf (entries : List Entry) : List Nat :=
  entries.filterMap (fun e =>
    match e with
    | Entry.structured r => some r.cell
    | _ => none)

/-- The applicability filter at reference level; it reads only the
immutable `path`/`paths` fields (the duplicated `!error.path` check
verbatim from the source, as in `entryMatchesFile`). -/
def entryMatchesFileRef (originalFilePath : String) : Entry → Bool
  | Entry.undef => false
  | Entry.plain _ => true
  | Entry.invalid _ => false
  | Entry.structured r =>
    if !truthyStr r.path && !truthyStr r.path then
      true
    else
      let paths := match r.paths with
        | some ps => ps
        | none => [r.path.getD ""]
      paths.any (fun errorPath => strIncludes originalFilePath errorPath)

/-- The `.map((err) => typeof err === 'object' ? { ...err } : err)` step at
reference level: each rule object is shallow-copied into a freshly
allocated object, so its `count` cell is a new heap cell initialised with
the current value of the original cell. -/
def copyEntries (heap : Heap) : List Entry → Heap × List Entry
  | [] => (heap, [])
  | Entry.structured r :: rest =>
    let h1 := heap ++ [heap.getD r.cell none]
    let p := copyEntries h1 rest
    (p.1, Entry.structured { r with cell := heap.length } :: p.2)
  | e :: rest =>
    let p := copyEntries heap rest
    (p.1, e :: p.2)

/-- Source `isIgnored` at reference level: the `ignoredError.count--`
mutation is a store into the rule object's heap cell. -/
def isIgnoredRef (msg : String) : Heap → List Entry → Bool × Heap
  | heap, [] => (false, heap)
  | heap, Entry.plain m :: rest =>
    if matchesStringOrRegexp msg m then (true, heap)
    else isIgnoredRef msg heap rest
  | heap, Entry.structured r :: rest =>
    let c := heap.getD r.cell none
    if c = some 0 then isIgnoredRef msg heap rest
    else if matchesStringOrRegexp msg r.message then
      if truthyCount c then (true, heap.set r.cell (c.map (fun k => k - 1)))
      else (true, heap)
    else isIgnoredRef msg heap rest
  | heap, Entry.invalid _ :: rest => isIgnoredRef msg heap rest
  | heap, Entry.undef :: rest => isIgnoredRef msg heap rest

/-- The diagnostics loop at reference level: the working entry list (an
array of object references) never changes, the heap does. -/
def filterLoopRef (rules : List Entry) :
    Heap → List Diagnostic → List Diagnostic × Heap
  | heap, [] => ([], heap)
  | heap, d :: ds =>
    let p := isIgnoredRef d.message heap rules
    let q := filterLoopRef rules p.2 ds
    (if p.1 then q.1 else d :: q.1, q.2)

/-- `filterBaselineErrorsForFile`'s filter pass at reference level, starting
from the resolved configuration's entry list: applicability filter, shallow
copy of the rule objects, then the loop.  Returns the kept diagnostics and
the final heap. -/
def filterPassRef (heap : Heap) (ignoreErrors : List Entry)
    (originalFilePath : String) (errors : List Diagnostic) :
    List Diagnostic × Heap :=
  let matching := ignoreErrors.filter (entryMatchesFileRef originalFilePath)
  let p := copyEntries heap matching
  filterLoopRef p.2 p.1 errors

end RefModel

theorem filterLoop_sublist (D : List Diagnostic) :
    ∀ rules : List IgnoreEntry, (filterLoop rules D).1.Sublist D := by
  induction D with
  | nil => intro rules; simp [filterLoop]
  | cons d ds ih =>
    intro rules
    simp only [filterLoop]
    split
    · exact (ih _).cons d
    · exact (ih _).cons₂ d

/-- C4: for every configuration, file path and diagnostic list, the list
returned by `filterBaselineErrorsForFile` is a subsequence of the input
diagnostics: nothing is added, nothing is duplicated, and the relative
order of the kept diagnostics is the original one. -/
theorem filterBaselineErrorsForFile_sublist (fs : String → PHPStanConfig)
    (resolveInclude : String → String → String) (checkConfig : CheckConfig)
    (originalFilePath : String) (errors : List Diagnostic) :
    (filterBaselineErrorsForFile fs resolveInclude checkConfig
      originalFilePath errors).Sublist errors := by
  unfold filterBaselineErrorsForFile filterCore
  exact filterLoop_sublist errors _

/-- C1 fails on the code: because of the duplicated condition
`!error.path && !error.path` (source line 195), a structured rule that
carries only a `paths` scoping field (no `path`) is treated as applicable
to every file.  Here the file path `lib/main.php` contains none of the
rule's scoped substrings (`src/`), yet the rule suppresses the diagnostic:
`filterBaselineErrorsForFile` returns the empty list. -/
theorem filterBaseline_pathsOnly_rule_fires_outside_scope :
    strIncludes "lib/main.php" "src/" = false ∧
    filterBaselineErrorsForFile
      (fun _ => ⟨none, some ⟨some [IgnoreEntry.structured
        ⟨Matcher.str "Some error", none, none, some ["src/"]⟩]⟩⟩)
      (fun _ inc => inc) ⟨some "phpstan.neon"⟩ "lib/main.php"
      [⟨"Some error happened", 0⟩] = [] :=
  ⟨by decide, by decide⟩

/-- C3: a structured rule whose `count` field is `0` is skipped outright by
`isIgnored`: wherever it sits in the rule list, the scan behaves exactly as
on the list without it — same boolean, same mutation of the other rules —
and the zero-count rule itself stays in place unchanged, so it never
suppresses a diagnostic and is never counted as a match. -/
theorem isIgnored_zero_count_inert (msg : String) (r : StructuredRule)
    (L1 L2 : List IgnoreEntry) (h : r.count = some 0) :
    isIgnored msg (L1 ++ IgnoreEntry.structured r :: L2) =
      ((isIgnored msg (L1 ++ L2)).1,
       (isIgnored msg (L1 ++ L2)).2.take L1.length ++
         IgnoreEntry.structured r ::
           (isIgnored msg (L1 ++ L2)).2.drop L1.length) := by
  induction L1 with
  | nil => simp [isIgnored, h]
  | cons e L1' ih =>
    cases e with
    | plain m =>
      by_cases hm : matchesStringOrRegexp msg m
      · simp [isIgnored, hm, List.take_left, List.drop_left]
      · simp [isIgnored, hm, ih]
    | structured r2 =>
      by_cases hz : r2.count = some 0
      · simp [isIgnored, hz, ih]
      · by_cases hm : matchesStringOrRegexp msg r2.message
        · simp [isIgnored, hz, hm, List.take_left, List.drop_left]
        · simp [isIgnored, hz, hm, ih]
    | invalid s => simp [isIgnored, ih]
    | undef => simp [isIgnored, ih]

theorem isIgnored_zero_count_inert_witness :
    (⟨Matcher.str "boom", some 0, none, none⟩ : StructuredRule).count = some 0 ∧
    isIgnored "boom"
        ([IgnoreEntry.plain (Matcher.str "zzz")] ++
          IgnoreEntry.structured ⟨Matcher.str "boom", some 0, none, none⟩ ::
            [IgnoreEntry.plain (Matcher.str "boom")]) =
      ((isIgnored "boom" ([IgnoreEntry.plain (Matcher.str "zzz")] ++
          [IgnoreEntry.plain (Matcher.str "boom")])).1,
       (isIgnored "boom" ([IgnoreEntry.plain (Matcher.str "zzz")] ++
          [IgnoreEntry.plain (Matcher.str "boom")])).2.take
            [IgnoreEntry.plain (Matcher.str "zzz")].length ++
         IgnoreEntry.structured ⟨Matcher.str "boom", some 0, none, none⟩ ::
           (isIgnored "boom" ([IgnoreEntry.plain (Matcher.str "zzz")] ++
              [IgnoreEntry.plain (Matcher.str "boom")])).2.drop
                [IgnoreEntry.plain (Matcher.str "zzz")].length) :=
  ⟨rfl, isIgnored_zero_count_inert "boom" _ _ _ rfl⟩

theorem filterLoop_snd_cons (rules : List IgnoreEntry) (d : Diagnostic)
    (ds : List Diagnostic) :
    (filterLoop rules (d :: ds)).2 =
      (filterLoop (isIgnored d.message rules).2 ds).2 := by
  simp [filterLoop]

theorem filterLoop_fst_cons (rules : List IgnoreEntry) (d : Diagnostic)
    (ds : List Diagnostic) :
    (filterLoop rules (d :: ds)).1 =
      if (isIgnored d.message rules).1 then
        (filterLoop (isIgnored d.message rules).2 ds).1
      else d :: (filterLoop (isIgnored d.message rules).2 ds).1 := by
  simp [filterLoop]

theorem isIgnored_zero_snd (msg : String) (r : StructuredRule)
    (rest : List IgnoreEntry) (h : r.count = some 0) :
    (isIgnored msg (IgnoreEntry.structured r :: rest)).2 =
      IgnoreEntry.structured r :: (isIgnored msg rest).2 := by
  simp [isIgnored, h]

theorem isIgnored_zero_fst (msg : String) (r : StructuredRule)
    (rest : List IgnoreEntry) (h : r.count = some 0) :
    (isIgnored msg (IgnoreEntry.structured r :: rest)).1 =
      (isIgnored msg rest).1 := by
  simp [isIgnored, h]

theorem isIgnored_match_snd (msg : String) (r : StructuredRule)
    (rest : List IgnoreEntry) (h : r.count ≠ some 0)
    (hm : matchesStringOrRegexp msg r.message = true) :
    (isIgnored msg (IgnoreEntry.structured r :: rest)).2 =
      IgnoreEntry.structured
        (if truthyCount r.count then
          { r with count := r.count.map (fun c => c - 1) }
         else r) :: rest := by
  rw [isIgnored, if_neg h, if_pos hm]

theorem isIgnored_match_fst (msg : String) (r : StructuredRule)
    (rest : List IgnoreEntry) (h : r.count ≠ some 0)
    (hm : matchesStringOrRegexp msg r.message = true) :
    (isIgnored msg (IgnoreEntry.structured r :: rest)).1 = true := by
  rw [isIgnored, if_neg h, if_pos hm]

theorem isIgnored_nomatch_snd (msg : String) (r : StructuredRule)
    (rest : List IgnoreEntry) (h : r.count ≠ some 0)
    (hm : matchesStringOrRegexp msg r.message = false) :
    (isIgnored msg (IgnoreEntry.structured r :: rest)).2 =
      IgnoreEntry.structured r :: (isIgnored msg rest).2 := by
  rw [isIgnored, if_neg h, if_neg (by simp [hm])]

theorem isIgnored_nomatch_fst (msg : String) (r : StructuredRule)
    (rest : List IgnoreEntry) (h : r.count ≠ some 0)
    (hm : matchesStringOrRegexp msg r.message = false) :
    (isIgnored msg (IgnoreEntry.structured r :: rest)).1 =
      (isIgnored msg rest).1 := by
  rw [isIgnored, if_neg h, if_neg (by simp [hm])]

theorem filterLoop_head_count (m : Matcher) (pa : Option String)
    (ps : Option (List String)) :
    ∀ (D : List Diagnostic) (n : Int) (L2 : List IgnoreEntry), 0 ≤ n →
    (filterLoop (IgnoreEntry.structured ⟨m, some n, pa, ps⟩ :: L2) D).2.head? =
      some (IgnoreEntry.structured
        ⟨m, some (n - min n
            (D.countP (fun d => matchesStringOrRegexp d.message m) : Int)),
          pa, ps⟩) := by
  intro D
  induction D with
  | nil =>
    intro n L2 hn
    simp only [filterLoop, List.countP_nil, List.head?_cons,
      Option.some.injEq, IgnoreEntry.structured.injEq,
      StructuredRule.mk.injEq, true_and, and_true]
    push_cast
    omega
  | cons d ds ih =>
    intro n L2 hn
    rw [filterLoop_snd_cons, List.countP_cons]
    rcases eq_or_ne n 0 with hn0 | hn0
    · subst hn0
      rw [isIgnored_zero_snd d.message ⟨m, some 0, pa, ps⟩ L2 rfl,
        ih 0 (isIgnored d.message L2).2 le_rfl]
      rcases Bool.eq_false_or_eq_true
          (matchesStringOrRegexp d.message m) with hm | hm <;>
        · simp only [hm, Option.some.injEq, IgnoreEntry.structured.injEq,
            StructuredRule.mk.injEq, true_and, and_true, if_true, if_false,
            ite_true, ite_false]
          push_cast
          omega
    · have hne : (some n : Option Int) ≠ some 0 := by simpa using hn0
      rcases Bool.eq_false_or_eq_true
          (matchesStringOrRegexp d.message m) with hm | hm
      · rw [isIgnored_match_snd d.message ⟨m, some n, pa, ps⟩ L2 hne hm]
        simp only [truthyCount, Option.map_some', decide_eq_true_eq, ne_eq,
          hn0, not_false_eq_true, ite_true, if_true]
        rw [ih (n - 1) L2 (by omega)]
        simp only [hm, Option.some.injEq, IgnoreEntry.structured.injEq,
          StructuredRule.mk.injEq, true_and, and_true, if_true, ite_true]
        push_cast
        omega
      · rw [isIgnored_nomatch_snd d.message ⟨m, some n, pa, ps⟩ L2 hne hm,
          ih n (isIgnored d.message L2).2 hn]
        simp only [hm, Option.some.injEq, IgnoreEntry.structured.injEq,
          StructuredRule.mk.injEq, true_and, and_true, if_false, ite_false]
        push_cast
        omega

theorem filterLoop_singleton_length (m : Matcher) (pa : Option String)
    (ps : Option (List String)) :
    ∀ (D : List Diagnostic) (n : Int), 0 ≤ n →
    ((filterLoop [IgnoreEntry.structured ⟨m, some n, pa, ps⟩] D).1.length : Int) =
      D.length - min n
        (D.countP (fun d => matchesStringOrRegexp d.message m) : Int) := by
  intro D
  induction D with
  | nil =>
    intro n hn
    simp only [filterLoop, List.countP_nil, List.length_nil]
    push_cast
    omega
  | cons d ds ih =>
    intro n hn
    have hC : (ds.countP (fun d => matchesStringOrRegexp d.message m) : Int)
        ≤ (ds.length : Int) := by
      exact_mod_cast List.countP_le_length _
    rw [filterLoop_fst_cons, List.countP_cons, List.length_cons]
    rcases eq_or_ne n 0 with hn0 | hn0
    · subst hn0
      rw [isIgnored_zero_fst d.message ⟨m, some 0, pa, ps⟩ [] rfl,
        isIgnored_zero_snd d.message ⟨m, some 0, pa, ps⟩ [] rfl]
      have := ih 0 le_rfl
      simp only [isIgnored, ite_false, if_false, List.length_cons,
        Bool.false_eq_true]
      rcases Bool.eq_false_or_eq_true
          (matchesStringOrRegexp d.message m) with hm | hm <;>
        · simp only [hm, if_true, if_false, ite_true, ite_false,
            Bool.false_eq_true, List.length_cons]
          push_cast at this ⊢
          omega
    · have hne : (some n : Option Int) ≠ some 0 := by simpa using hn0
      rcases Bool.eq_false_or_eq_true
          (matchesStringOrRegexp d.message m) with hm | hm
      · rw [isIgnored_match_fst d.message ⟨m, some n, pa, ps⟩ [] hne hm,
          isIgnored_match_snd d.message ⟨m, some n, pa, ps⟩ [] hne hm]
        simp only [truthyCount, Option.map_some', decide_eq_true_eq, ne_eq,
          hn0, not_false_eq_true, ite_true, if_true]
        have := ih (n - 1) (by omega)
        simp only [hm, if_true, ite_true, List.length_cons]
        push_cast at this ⊢
        omega
      · rw [isIgnored_nomatch_fst d.message ⟨m, some n, pa, ps⟩ [] hne hm,
          isIgnored_nomatch_snd d.message ⟨m, some n, pa, ps⟩ [] hne hm]
        have := ih n hn
        simp only [isIgnored, List.length_cons, hm, if_false, ite_false,
          Bool.false_eq_true]
        push_cast at this ⊢
        omega

/-- C2: an applicable structured rule with `count = N > 0` placed first in
the rule list consumes its quota by exactly one per suppression: after a
full filter pass over `D` its `count` is `N - min N M`, where `M` is
the number of diagnostics of `D` its matcher matches (first match wins, so
every match reaching the rule while its quota lasts is suppressed); and
when it is the only applicable rule, the pass keeps exactly
`|D| - min N M` diagnostics, i.e. suppresses exactly `min N M`. -/
theorem structuredRule_count_quota (r : StructuredRule) (n : Int)
    (L2 : List IgnoreEntry) (D : List Diagnostic)
    (hc : r.count = some n) (hn : 0 < n) :
    (filterLoop (IgnoreEntry.structured r :: L2) D).2.head? =
      some (IgnoreEntry.structured { r with count := some (n - min n (D.countP (fun d => matchesStringOrRegexp d.message r.message) : Int)) }) ∧
    ((filterLoop [IgnoreEntry.structured r] D).1.length : Int) =
      D.length - min n
        (D.countP (fun d => matchesStringOrRegexp d.message r.message) : Int) := by
  obtain ⟨m, c, pa, ps⟩ := r
  cases hc
  exact ⟨filterLoop_head_count m pa ps D n L2 (le_of_lt hn),
    filterLoop_singleton_length m pa ps D n (le_of_lt hn)⟩

theorem structuredRule_count_quota_witness :
    (⟨Matcher.str "Undefined variable", some 1, none, none⟩ :
        StructuredRule).count = some 1 ∧
    (0:Int) < 1 ∧
    ((filterLoop [IgnoreEntry.structured
          ⟨Matcher.str "Undefined variable", some 1, none, none⟩]
        [⟨"Undefined variable $foo", 0⟩, ⟨"Undefined variable $bar", 1⟩]).2.head? =
      some (IgnoreEntry.structured
        ⟨Matcher.str "Undefined variable",
          some (1 - min 1
            (([⟨"Undefined variable $foo", 0⟩, ⟨"Undefined variable $bar", 1⟩] :
                List Diagnostic).countP
              (fun d => matchesStringOrRegexp d.message
                (Matcher.str "Undefined variable")) : Int)),
          none, none⟩) ∧
    ((filterLoop [IgnoreEntry.structured
          ⟨Matcher.str "Undefined variable", some 1, none, none⟩]
        [⟨"Undefined variable $foo", 0⟩,
          ⟨"Undefined variable $bar", 1⟩]).1.length : Int) =
      ([⟨"Undefined variable $foo", 0⟩, ⟨"Undefined variable $bar", 1⟩] :
          List Diagnostic).length - min 1
        (([⟨"Undefined variable $foo", 0⟩, ⟨"Undefined variable $bar", 1⟩] :
            List Diagnostic).countP
          (fun d => matchesStringOrRegexp d.message
            (Matcher.str "Undefined variable")) : Int)) :=
  ⟨rfl, by decide,
    structuredRule_count_quota
      ⟨Matcher.str "Undefined variable", some 1, none, none⟩ 1 []
      [⟨"Undefined variable $foo", 0⟩, ⟨"Undefined variable $bar", 1⟩]
      rfl (by decide)⟩

theorem joinSeq_getD {α : Type} (x y : Option (List α)) :
    (joinSeq x y).getD [] = x.getD [] ++ y.getD [] := by
  cases x <;> cases y <;> simp [joinSeq]

theorem ignoreErrorsOf_deepObjectJoin (a b : PHPStanConfig) :
    ignoreErrorsOf (deepObjectJoin a b) =
      ignoreErrorsOf a ++ ignoreErrorsOf b := by
  obtain ⟨ia, pa⟩ := a
  obtain ⟨ib, pb⟩ := b
  cases pa <;> cases pb <;>
    simp [ignoreErrorsOf, deepObjectJoin, joinSeq_getD, Option.bind]

theorem ignoreErrorsOf_foldl (fs : String → PHPStanConfig)
    (g : String → String) :
    ∀ (incs : List String) (acc : PHPStanConfig),
    ignoreErrorsOf (incs.foldl
        (fun a i => deepObjectJoin a (fs (g i))) acc) =
      ignoreErrorsOf acc ++
        incs.flatMap (fun i => ignoreErrorsOf (fs (g i))) := by
  intro incs
  induction incs with
  | nil => intro acc; simp
  | cons i is ih =>
    intro acc
    simp only [List.foldl_cons, List.flatMap_cons, ih,
      ignoreErrorsOf_deepObjectJoin, List.append_assoc]

/-- C5 (amended): configuration resolution gathers ignore-rules from the
root config file and from its directly included files only.  The resolved
`ignoreErrors` sequence is the concatenation of the root's rules with the
rules of each file listed in the root's own `includes`, in declaration
order; `includes` entries inside included files are not followed, because
the `for (const inc of entrypointFile.includes)` loop iterates the root
document's array captured before any merge. -/
theorem getErrorsToIgnore_direct_includes_only (fs : String → PHPStanConfig)
    (resolveInclude : String → String → String) (configFile : String) :
    getErrorsToIgnore fs resolveInclude ⟨some configFile⟩ =
      ignoreErrorsOf (fs configFile) ++
        ((fs configFile).includes.getD []).flatMap
          (fun inc => ignoreErrorsOf (fs (resolveInclude configFile inc))) := by
  unfold getErrorsToIgnore getPHPStanConfig
  cases h : (fs configFile).includes with
  | none => simp [h]
  | some incs => simp [h, ignoreErrorsOf_foldl]

/-- C5 fails as stated: with a root that includes `a` and an `a` that
includes `b`, the resolution reads `b` never — the resolved `ignoreErrors`
holds only the root's and `a`'s rules (two entries, not the three a
transitive concatenation would give), because inclusion is one level deep. -/
theorem getPHPStanConfig_not_transitive_counterexample :
    ignoreErrorsOf (getPHPStanConfig
      (fun p =>
        if p = "root" then
          ⟨some ["a"], some ⟨some [IgnoreEntry.plain (Matcher.str "root-rule")]⟩⟩
        else if p = "a" then
          ⟨some ["b"], some ⟨some [IgnoreEntry.plain (Matcher.str "a-rule")]⟩⟩
        else ⟨none, some ⟨some [IgnoreEntry.plain (Matcher.str "b-rule")]⟩⟩)
      (fun _ inc => inc) "root") =
      [IgnoreEntry.plain (Matcher.str "root-rule"),
        IgnoreEntry.plain (Matcher.str "a-rule")] ∧
    (ignoreErrorsOf (getPHPStanConfig
      (fun p =>
        if p = "root" then
          ⟨some ["a"], some ⟨some [IgnoreEntry.plain (Matcher.str "root-rule")]⟩⟩
        else if p = "a" then
          ⟨some ["b"], some ⟨some [IgnoreEntry.plain (Matcher.str "a-rule")]⟩⟩
        else ⟨none, some ⟨some [IgnoreEntry.plain (Matcher.str "b-rule")]⟩⟩)
      (fun _ inc => inc) "root")).length ≠ 3 :=
  ⟨rfl, by decide⟩

/-- C7 fails as stated on empty file content: after a first read of an
empty file (cached value `""`), a second read before any watcher event
re-reads the disk (third component `true`) and returns the new disk
content `"x"` instead of the cached content, because the cache hit test is
the JS truthiness check `if (this._cachedValue)` and `""` is falsy. -/
theorem cachedFileReader_empty_cache_refetches :
    (CachedFileReader.read "x"
        ((CachedFileReader.read "" CachedFileReader.init).2.1)).2.2 = true ∧
    (CachedFileReader.read "x"
        ((CachedFileReader.read "" CachedFileReader.init).2.1)).1 = "x" :=
  ⟨rfl, rfl⟩

/-- C7 (amended): the first `read()` fetches from disk, caches the content
and registers a filesystem watcher; while the cached content is non-empty
and the watcher has not fired, every subsequent `read()` returns the cached
content without touching the disk (a cached empty string is treated as
absent, so the next `read()` re-fetches); after the watcher fires the cache
is invalidated and the next `read()` re-fetches from disk. -/
theorem cachedFileReader_cache_protocol (disk disk2 c : String)
    (r : CachedFileReader) (hne : c.isEmpty = false)
    (hc : r.cachedValue = some c) :
    CachedFileReader.read disk CachedFileReader.init =
      (disk, ⟨some disk, false, true⟩, true) ∧
    CachedFileReader.read disk2 r = (c, r, false) ∧
    (CachedFileReader.read disk2 r.watcherFires).1 = disk2 ∧
    (CachedFileReader.read disk2 r.watcherFires).2.2 = true := by
  refine ⟨rfl, ?_, ?_, ?_⟩
  · simp [CachedFileReader.read, truthyStr, hc, hne]
  · simp [CachedFileReader.read, CachedFileReader.watcherFires, truthyStr]
  · simp [CachedFileReader.read, CachedFileReader.watcherFires, truthyStr]

theorem cachedFileReader_cache_protocol_witness :
    ("z" : String).isEmpty = false ∧
    (⟨some "z", false, true⟩ : CachedFileReader).cachedValue = some "z" ∧
    (CachedFileReader.read "x" CachedFileReader.init =
      ("x", ⟨some "x", false, true⟩, true) ∧
    CachedFileReader.read "y" ⟨some "z", false, true⟩ =
      ("z", ⟨some "z", false, true⟩, false) ∧
    (CachedFileReader.read "y"
        (CachedFileReader.watcherFires ⟨some "z", false, true⟩)).1 = "y" ∧
    (CachedFileReader.read "y"
        (CachedFileReader.watcherFires ⟨some "z", false, true⟩)).2.2 = true) :=
  ⟨rfl, rfl, cachedFileReader_cache_protocol "x" "y" "z" ⟨some "z", false, true⟩ rfl rfl⟩

/-- C8: when a stdout chunk carries the readiness marker (and the handler
reaches the readiness check, i.e. it is not intercepted by a progress
report), and the credential/config directory is absent at the
post-grace-period check, `launchPro` resolves to the error result whose
cause reports that the tmp folder does not exist — no success value (and
hence no `PHPStanProProcess` session handle) is produced. -/
theorem launchPro_missing_tmp_folder_fails (hasOnProgress folderExists : Bool)
    (tmpPath chunk : String)
    (hmark : strIncludes chunk "Open your web browser at:" = true)
    (hnoprog : hasOnProgress = false ∨ matchAllProgress chunk = [])
    (hdir : folderExists = false) :
    launchProHandleStdout hasOnProgress folderExists tmpPath chunk =
      LaunchOutcome.resolvedError
        "Failed to launch PHPStan Pro (tmp folder does not exist)" := by
  subst hdir
  rcases hnoprog with h | h <;>
    simp [launchProHandleStdout, h, hmark]

theorem launchPro_missing_tmp_folder_fails_witness :
    strIncludes "Open your web browser at: x" "Open your web browser at:" = true ∧
    (true = false ∨ matchAllProgress "Open your web browser at: x" = []) ∧
    false = false ∧
    launchProHandleStdout true false "/tmp" "Open your web browser at: x" =
      LaunchOutcome.resolvedError
        "Failed to launch PHPStan Pro (tmp folder does not exist)" :=
  ⟨by decide, Or.inr rfl, rfl,
    launchPro_missing_tmp_folder_fails true false "/tmp"
      "Open your web browser at: x" (by decide) (Or.inr rfl) rfl⟩

/-- C9: the progress parser yields `{done := 12, total := 50,
percentage := 24}` on the chunk `"12/50 [====>    ] 24%"`; and whenever a
chunk's match list is `l ++ [m]`, the handler (with a progress callback
supplied) reports exactly the last match `m`. -/
theorem launchPro_progress_last_match (folderExists : Bool)
    (tmpPath chunk : String) (l : List ProgressRecord) (m : ProgressRecord)
    (hlast : matchAllProgress chunk = l ++ [m]) :
    matchAllProgress "12/50 [====>    ] 24%" = [⟨12, 50, 24⟩] ∧
    launchProHandleStdout true folderExists tmpPath chunk =
      LaunchOutcome.progressReported m := by
  refine ⟨by decide, ?_⟩
  simp [launchProHandleStdout, hlast]

theorem launchPro_progress_last_match_witness :
    matchAllProgress "1/2 [] 3% 12/50 [====>    ] 24%" =
      [⟨1, 2, 3⟩] ++ [⟨12, 50, 24⟩] ∧
    (matchAllProgress "12/50 [====>    ] 24%" = [⟨12, 50, 24⟩] ∧
    launchProHandleStdout true true "/tmp" "1/2 [] 3% 12/50 [====>    ] 24%" =
      LaunchOutcome.progressReported ⟨12, 50, 24⟩) :=
  ⟨rfl, launchPro_progress_last_match true "/tmp"
    "1/2 [] 3% 12/50 [====>    ] 24%" [⟨1, 2, 3⟩] ⟨12, 50, 24⟩ rfl⟩

/-- C10: when a progress callback is supplied and the chunk contains at
least one progress marker, the handler reports progress and returns
immediately — even if the chunk also contains the readiness marker
`"Open your web browser at:"`, the readiness path (grace wait, credential
directory test, resolution) is not taken: the outcome is the progress
report for every value of the directory-existence flag. -/
theorem launchPro_progress_preempts_readiness (folderExists : Bool)
    (tmpPath chunk : String) (l : List ProgressRecord) (m : ProgressRecord)
    (hprog : matchAllProgress chunk = l ++ [m])
    (hmark : strIncludes chunk "Open your web browser at:" = true) :
    launchProHandleStdout true folderExists tmpPath chunk =
      LaunchOutcome.progressReported m := by
  simp [launchProHandleStdout, hprog]

theorem launchPro_progress_preempts_readiness_witness :
    matchAllProgress "5/9 [>] 55% Open your web browser at: x" =
      [] ++ [⟨5, 9, 55⟩] ∧
    strIncludes "5/9 [>] 55% Open your web browser at: x"
      "Open your web browser at:" = true ∧
    launchProHandleStdout true false "/tmp"
        "5/9 [>] 55% Open your web browser at: x" =
      LaunchOutcome.progressReported ⟨5, 9, 55⟩ :=
  ⟨rfl, by decide,
    launchPro_progress_preempts_readiness false "/tmp"
      "5/9 [>] 55% Open your web browser at: x" [] ⟨5, 9, 55⟩ rfl (by decide)⟩

theorem RefModel.cellsOf_nil : RefModel.cellsOf [] = [] := rfl

theorem RefModel.cellsOf_cons_plain (m : Matcher) (l : List RefModel.Entry) :
    RefModel.cellsOf (RefModel.Entry.plain m :: l) = RefModel.cellsOf l := rfl

theorem RefModel.cellsOf_cons_invalid (s : String) (l : List RefModel.Entry) :
    RefModel.cellsOf (RefModel.Entry.invalid s :: l) = RefModel.cellsOf l := rfl

theorem RefModel.cellsOf_cons_undef (l : List RefModel.Entry) :
    RefModel.cellsOf (RefModel.Entry.undef :: l) = RefModel.cellsOf l := rfl

theorem RefModel.cellsOf_cons_structured (r : RefModel.RuleObj)
    (l : List RefModel.Entry) :
    RefModel.cellsOf (RefModel.Entry.structured r :: l) =
      r.cell :: RefModel.cellsOf l := rfl

theorem RefModel.getD_take_of_lt (a : RefModel.Heap) (n i : Nat) (h : i < n) :
    (a.take n).getD i none = a.getD i none := by
  rw [List.getD_eq_getElem?_getD, List.getD_eq_getElem?_getD,
    List.getElem?_take]
  simp [h]

theorem RefModel.getD_append_left (a : RefModel.Heap) (v : Option Int)
    (i : Nat) (h : i < a.length) :
    (a ++ [v]).getD i none = a.getD i none := by
  rw [List.getD_eq_getElem?_getD, List.getD_eq_getElem?_getD,
    List.getElem?_append_left h]

theorem RefModel.getD_concat_length (a : RefModel.Heap) (v : Option Int) :
    (a ++ [v]).getD a.length none = v := by
  rw [List.getD_eq_getElem?_getD, List.getElem?_concat_length]
  rfl

theorem RefModel.getD_set_self (a : RefModel.Heap) (i : Nat) (v : Option Int)
    (h : i < a.length) :
    (a.set i v).getD i none = v := by
  rw [List.getD_eq_getElem?_getD, List.getElem?_set_self h]
  rfl

theorem RefModel.getD_set_ne (a : RefModel.Heap) (i j : Nat) (v : Option Int)
    (h : i ≠ j) :
    (a.set i v).getD j none = a.getD j none := by
  rw [List.getD_eq_getElem?_getD, List.getD_eq_getElem?_getD,
    List.getElem?_set_ne h]

theorem RefModel.take_eq_of_agree (a b : RefModel.Heap) (n : Nat)
    (ha : n ≤ a.length) (hb : n ≤ b.length)
    (hagree : ∀ i, i < n → a.getD i none = b.getD i none) :
    a.take n = b.take n := by
  apply List.ext_getElem?
  intro i
  rw [List.getElem?_take, List.getElem?_take]
  by_cases hi : i < n
  · simp only [hi, if_true, ite_true]
    have hia : i < a.length := lt_of_lt_of_le hi ha
    have hib : i < b.length := lt_of_lt_of_le hi hb
    rw [List.getElem?_eq_getElem hia, List.getElem?_eq_getElem hib]
    have := hagree i hi
    rw [List.getD_eq_getElem?_getD, List.getD_eq_getElem?_getD,
      List.getElem?_eq_getElem hia, List.getElem?_eq_getElem hib] at this
    simpa using this
  · simp [hi]

theorem RefModel.derefList_congr (h1 h2 : RefModel.Heap)
    (l : List RefModel.Entry)
    (hagree : ∀ c ∈ RefModel.cellsOf l, h1.getD c none = h2.getD c none) :
    l.map (RefModel.derefEntry h1) = l.map (RefModel.derefEntry h2) := by
  induction l with
  | nil => rfl
  | cons e rest ih =>
    cases e with
    | plain m =>
      simp only [List.map_cons, RefModel.derefEntry,
        ih (fun c hc => hagree c hc)]
    | invalid s =>
      simp only [List.map_cons, RefModel.derefEntry,
        ih (fun c hc => hagree c hc)]
    | undef =>
      simp only [List.map_cons, RefModel.derefEntry,
        ih (fun c hc => hagree c hc)]
    | structured r =>
      have htail : List.map (RefModel.derefEntry h1) rest =
          List.map (RefModel.derefEntry h2) rest :=
        ih (fun c hc => hagree c (by
          rw [RefModel.cellsOf_cons_structured]
          exact List.mem_cons_of_mem _ hc))
      have hcell := hagree r.cell (by
        rw [RefModel.cellsOf_cons_structured]
        exact List.mem_cons_self _ _)
      rw [List.getD_eq_getElem?_getD, List.getD_eq_getElem?_getD] at hcell
      simp only [List.map_cons, RefModel.derefEntry, htail,
        List.getD_eq_getElem?_getD, hcell]

theorem RefModel.entryMatchesFileRef_deref (heap : RefModel.Heap)
    (p : String) (e : RefModel.Entry) :
    entryMatchesFile p (RefModel.derefEntry heap e) =
      RefModel.entryMatchesFileRef p e := by
  cases e <;> rfl

theorem RefModel.filter_deref_comm (heap : RefModel.Heap) (p : String)
    (l : List RefModel.Entry) :
    (l.map (RefModel.derefEntry heap)).filter (entryMatchesFile p) =
      (l.filter (RefModel.entryMatchesFileRef p)).map
        (RefModel.derefEntry heap) := by
  rw [List.filter_map]
  congr 1
  apply List.filter_congr
  intro e _
  exact RefModel.entryMatchesFileRef_deref heap p e

theorem RefModel.cellsOf_filter_subset (p : RefModel.Entry → Bool)
    (l : List RefModel.Entry) :
    ∀ c ∈ RefModel.cellsOf (l.filter p), c ∈ RefModel.cellsOf l := by
  intro c hc
  exact ((List.filter_sublist l).filterMap _).subset hc

theorem map_shallowCopy (l : List IgnoreEntry) : l.map shallowCopy = l := by
  induction l with
  | nil => rfl
  | cons a l ih => simp [shallowCopy, ih]

theorem RefModel.isIgnoredRef_plain (msg : String) (m : Matcher)
    (rest : List RefModel.Entry) (heap : RefModel.Heap) :
    RefModel.isIgnoredRef msg heap (RefModel.Entry.plain m :: rest) =
      (if matchesStringOrRegexp msg m then (true, heap)
        else RefModel.isIgnoredRef msg heap rest) := by
  simp [RefModel.isIgnoredRef]

theorem RefModel.isIgnoredRef_invalid (msg : String) (s : String)
    (rest : List RefModel.Entry) (heap : RefModel.Heap) :
    RefModel.isIgnoredRef msg heap (RefModel.Entry.invalid s :: rest) =
      RefModel.isIgnoredRef msg heap rest := by
  simp [RefModel.isIgnoredRef]

theorem RefModel.isIgnoredRef_undef (msg : String)
    (rest : List RefModel.Entry) (heap : RefModel.Heap) :
    RefModel.isIgnoredRef msg heap (RefModel.Entry.undef :: rest) =
      RefModel.isIgnoredRef msg heap rest := by
  simp [RefModel.isIgnoredRef]

theorem isIgnored_plain_eq (msg : String) (m : Matcher)
    (rest : List IgnoreEntry) :
    isIgnored msg (IgnoreEntry.plain m :: rest) =
      (if matchesStringOrRegexp msg m then (true, IgnoreEntry.plain m :: rest)
       else ((isIgnored msg rest).1,
         IgnoreEntry.plain m :: (isIgnored msg rest).2)) := rfl

theorem isIgnored_invalid_eq (msg : String) (s : String)
    (rest : List IgnoreEntry) :
    isIgnored msg (IgnoreEntry.invalid s :: rest) =
      ((isIgnored msg rest).1,
        IgnoreEntry.invalid s :: (isIgnored msg rest).2) := rfl

theorem isIgnored_undef_eq (msg : String) (rest : List IgnoreEntry) :
    isIgnored msg (IgnoreEntry.undef :: rest) =
      ((isIgnored msg rest).1,
        IgnoreEntry.undef :: (isIgnored msg rest).2) := rfl

theorem RefModel.derefEntry_plain (heap : RefModel.Heap) (m : Matcher) :
    RefModel.derefEntry heap (RefModel.Entry.plain m) =
      IgnoreEntry.plain m := rfl

theorem RefModel.derefEntry_invalid (heap : RefModel.Heap) (s : String) :
    RefModel.derefEntry heap (RefModel.Entry.invalid s) =
      IgnoreEntry.invalid s := rfl

theorem RefModel.derefEntry_undef (heap : RefModel.Heap) :
    RefModel.derefEntry heap RefModel.Entry.undef = IgnoreEntry.undef := rfl

theorem RefModel.derefEntry_structured (heap : RefModel.Heap)
    (r : RefModel.RuleObj) :
    RefModel.derefEntry heap (RefModel.Entry.structured r) =
      IgnoreEntry.structured
        ⟨r.message, heap.getD r.cell none, r.path, r.paths⟩ := rfl

theorem RefModel.map_deref_cons (heap : RefModel.Heap) (e : RefModel.Entry)
    (rest : List RefModel.Entry) :
    (e :: rest).map (RefModel.derefEntry heap) =
      RefModel.derefEntry heap e ::
        rest.map (RefModel.derefEntry heap) := rfl

theorem RefModel.isIgnoredRef_structured_eq (msg : String)
    (r : RefModel.RuleObj) (rest : List RefModel.Entry)
    (heap : RefModel.Heap) :
    RefModel.isIgnoredRef msg heap (RefModel.Entry.structured r :: rest) =
      (if heap.getD r.cell none = some 0 then
        RefModel.isIgnoredRef msg heap rest
       else if matchesStringOrRegexp msg r.message then
        (if truthyCount (heap.getD r.cell none) then
          (true, heap.set r.cell
            ((heap.getD r.cell none).map (fun k => k - 1)))
         else (true, heap))
       else RefModel.isIgnoredRef msg heap rest) := rfl

theorem RefModel.isIgnoredRef_zero (msg : String) (r : RefModel.RuleObj)
    (rest : List RefModel.Entry) (heap : RefModel.Heap)
    (hz : heap.getD r.cell none = some 0) :
    RefModel.isIgnoredRef msg heap (RefModel.Entry.structured r :: rest) =
      RefModel.isIgnoredRef msg heap rest := by
  rw [RefModel.isIgnoredRef_structured_eq, if_pos hz]

theorem RefModel.isIgnoredRef_match (msg : String) (r : RefModel.RuleObj)
    (rest : List RefModel.Entry) (heap : RefModel.Heap)
    (hz : heap.getD r.cell none ≠ some 0)
    (hm : matchesStringOrRegexp msg r.message = true) :
    RefModel.isIgnoredRef msg heap (RefModel.Entry.structured r :: rest) =
      (if truthyCount (heap.getD r.cell none) then
        (true, heap.set r.cell ((heap.getD r.cell none).map (fun k => k - 1)))
       else (true, heap)) := by
  rw [RefModel.isIgnoredRef_structured_eq, if_neg hz, if_pos hm]

theorem RefModel.isIgnoredRef_nomatch (msg : String) (r : RefModel.RuleObj)
    (rest : List RefModel.Entry) (heap : RefModel.Heap)
    (hz : heap.getD r.cell none ≠ some 0)
    (hm : matchesStringOrRegexp msg r.message = false) :
    RefModel.isIgnoredRef msg heap (RefModel.Entry.structured r :: rest) =
      RefModel.isIgnoredRef msg heap rest := by
  rw [RefModel.isIgnoredRef_structured_eq, if_neg hz, if_neg (by simp [hm])]

theorem RefModel.isIgnoredRef_length (msg : String) :
    ∀ (w : List RefModel.Entry) (heap : RefModel.Heap),
    (RefModel.isIgnoredRef msg heap w).2.length = heap.length := by
  intro w
  induction w with
  | nil => intro heap; rfl
  | cons e rest ih =>
    intro heap
    cases e with
    | plain m =>
      rw [RefModel.isIgnoredRef_plain]
      rcases Bool.eq_false_or_eq_true (matchesStringOrRegexp msg m) with hm | hm
      · rw [if_pos hm]
      · rw [if_neg (by simp [hm])]
        exact ih heap
    | invalid s =>
      rw [RefModel.isIgnoredRef_invalid]
      exact ih heap
    | undef =>
      rw [RefModel.isIgnoredRef_undef]
      exact ih heap
    | structured r =>
      by_cases hz : heap.getD r.cell none = some 0
      · rw [RefModel.isIgnoredRef_zero msg r rest heap hz]
        exact ih heap
      · rcases Bool.eq_false_or_eq_true
            (matchesStringOrRegexp msg r.message) with hm | hm
        · rw [RefModel.isIgnoredRef_match msg r rest heap hz hm]
          by_cases ht : truthyCount (heap.getD r.cell none) = true
          · rw [if_pos ht]
            exact List.length_set heap r.cell _
          · rw [if_neg ht]
        · rw [RefModel.isIgnoredRef_nomatch msg r rest heap hz hm]
          exact ih heap

theorem RefModel.isIgnoredRef_frame (msg : String) :
    ∀ (w : List RefModel.Entry) (heap : RefModel.Heap) (i : Nat),
    i ∉ RefModel.cellsOf w →
    (RefModel.isIgnoredRef msg heap w).2.getD i none = heap.getD i none := by
  intro w
  induction w with
  | nil => intro heap i _; rfl
  | cons e rest ih =>
    intro heap i hi
    cases e with
    | plain m =>
      rw [RefModel.isIgnoredRef_plain]
      rcases Bool.eq_false_or_eq_true (matchesStringOrRegexp msg m) with hm | hm
      · rw [if_pos hm]
      · rw [if_neg (by simp [hm])]
        exact ih heap i hi
    | invalid s =>
      rw [RefModel.isIgnoredRef_invalid]
      exact ih heap i hi
    | undef =>
      rw [RefModel.isIgnoredRef_undef]
      exact ih heap i hi
    | structured r =>
      rw [RefModel.cellsOf_cons_structured, List.mem_cons] at hi
      push_neg at hi
      obtain ⟨hi1, hi2⟩ := hi
      by_cases hz : heap.getD r.cell none = some 0
      · rw [RefModel.isIgnoredRef_zero msg r rest heap hz]
        exact ih heap i hi2
      · rcases Bool.eq_false_or_eq_true
            (matchesStringOrRegexp msg r.message) with hm | hm
        · rw [RefModel.isIgnoredRef_match msg r rest heap hz hm]
          by_cases ht : truthyCount (heap.getD r.cell none) = true
          · rw [if_pos ht]
            exact RefModel.getD_set_ne heap r.cell i _ (fun h => hi1 h.symm)
          · rw [if_neg ht]
        · rw [RefModel.isIgnoredRef_nomatch msg r rest heap hz hm]
          exact ih heap i hi2

theorem RefModel.isIgnoredRef_fst (msg : String) :
    ∀ (w : List RefModel.Entry) (heap : RefModel.Heap),
    (RefModel.isIgnoredRef msg heap w).1 =
      (isIgnored msg (w.map (RefModel.derefEntry heap))).1 := by
  intro w
  induction w with
  | nil => intro heap; rfl
  | cons e rest ih =>
    intro heap
    have hpure : (isIgnored msg
        ((e :: rest).map (RefModel.derefEntry heap))).1 =
        (isIgnored msg (RefModel.derefEntry heap e ::
          rest.map (RefModel.derefEntry heap))).1 := rfl
    rw [hpure]
    cases e with
    | plain m =>
      rw [RefModel.derefEntry_plain, RefModel.isIgnoredRef_plain,
        isIgnored_plain_eq]
      rcases Bool.eq_false_or_eq_true (matchesStringOrRegexp msg m) with hm | hm
      · rw [if_pos hm, if_pos hm]
      · rw [if_neg (by simp [hm]), if_neg (by simp [hm])]
        exact ih heap
    | invalid s =>
      rw [RefModel.derefEntry_invalid, RefModel.isIgnoredRef_invalid,
        isIgnored_invalid_eq]
      exact ih heap
    | undef =>
      rw [RefModel.derefEntry_undef, RefModel.isIgnoredRef_undef,
        isIgnored_undef_eq]
      exact ih heap
    | structured r =>
      rw [RefModel.derefEntry_structured]
      by_cases hz : heap.getD r.cell none = some 0
      · rw [RefModel.isIgnoredRef_zero msg r rest heap hz,
          isIgnored_zero_fst msg ⟨r.message, heap.getD r.cell none, r.path,
            r.paths⟩ (rest.map (RefModel.derefEntry heap)) hz]
        exact ih heap
      · rcases Bool.eq_false_or_eq_true
            (matchesStringOrRegexp msg r.message) with hm | hm
        · rw [RefModel.isIgnoredRef_match msg r rest heap hz hm,
            isIgnored_match_fst msg ⟨r.message, heap.getD r.cell none, r.path,
              r.paths⟩ (rest.map (RefModel.derefEntry heap)) hz hm]
          by_cases ht : truthyCount (heap.getD r.cell none) = true
          · rw [if_pos ht]
          · rw [if_neg ht]
        · rw [RefModel.isIgnoredRef_nomatch msg r rest heap hz hm,
            isIgnored_nomatch_fst msg ⟨r.message, heap.getD r.cell none,
              r.path, r.paths⟩ (rest.map (RefModel.derefEntry heap)) hz hm]
          exact ih heap

theorem RefModel.isIgnoredRef_map (msg : String) :
    ∀ (w : List RefModel.Entry) (heap : RefModel.Heap),
    (RefModel.cellsOf w).Nodup →
    (∀ c ∈ RefModel.cellsOf w, c < heap.length) →
    w.map (RefModel.derefEntry (RefModel.isIgnoredRef msg heap w).2) =
      (isIgnored msg (w.map (RefModel.derefEntry heap))).2 := by
  intro w
  induction w with
  | nil => intro heap _ _; rfl
  | cons e rest ih =>
    intro heap hnd hbd
    have hpure : (isIgnored msg
        ((e :: rest).map (RefModel.derefEntry heap))).2 =
        (isIgnored msg (RefModel.derefEntry heap e ::
          rest.map (RefModel.derefEntry heap))).2 := rfl
    rw [hpure]
    cases e with
    | plain m =>
      rw [RefModel.derefEntry_plain, isIgnored_plain_eq]
      rcases Bool.eq_false_or_eq_true (matchesStringOrRegexp msg m) with hm | hm
      · rw [RefModel.isIgnoredRef_plain, if_pos hm, if_pos hm]
        rfl
      · have hstep : (RefModel.isIgnoredRef msg heap
            (RefModel.Entry.plain m :: rest)).2 =
            (RefModel.isIgnoredRef msg heap rest).2 := by
          rw [RefModel.isIgnoredRef_plain, if_neg (by simp [hm])]
        rw [hstep, if_neg (by simp [hm]),
          RefModel.map_deref_cons (RefModel.isIgnoredRef msg heap rest).2
            (RefModel.Entry.plain m) rest,
          RefModel.derefEntry_plain, ih heap hnd hbd]
    | invalid s =>
      rw [RefModel.derefEntry_invalid, isIgnored_invalid_eq,
        show (RefModel.isIgnoredRef msg heap
            (RefModel.Entry.invalid s :: rest)).2 =
          (RefModel.isIgnoredRef msg heap rest).2 from
          congrArg Prod.snd (RefModel.isIgnoredRef_invalid msg s rest heap),
        RefModel.map_deref_cons (RefModel.isIgnoredRef msg heap rest).2
          (RefModel.Entry.invalid s) rest,
        RefModel.derefEntry_invalid, ih heap hnd hbd]
    | undef =>
      rw [RefModel.derefEntry_undef, isIgnored_undef_eq,
        show (RefModel.isIgnoredRef msg heap
            (RefModel.Entry.undef :: rest)).2 =
          (RefModel.isIgnoredRef msg heap rest).2 from
          congrArg Prod.snd (RefModel.isIgnoredRef_undef msg rest heap),
        RefModel.map_deref_cons (RefModel.isIgnoredRef msg heap rest).2
          RefModel.Entry.undef rest,
        RefModel.derefEntry_undef, ih heap hnd hbd]
    | structured r =>
      rw [RefModel.cellsOf_cons_structured] at hnd hbd
      rw [List.nodup_cons] at hnd
      obtain ⟨hnotin, hnd'⟩ := hnd
      have hbd' : ∀ c ∈ RefModel.cellsOf rest, c < heap.length :=
        fun c hc => hbd c (List.mem_cons_of_mem _ hc)
      have hcell_lt : r.cell < heap.length :=
        hbd r.cell (List.mem_cons_self _ _)
      rw [RefModel.derefEntry_structured]
      by_cases hz : heap.getD r.cell none = some 0
      · rw [isIgnored_zero_snd msg ⟨r.message, heap.getD r.cell none, r.path,
            r.paths⟩ (rest.map (RefModel.derefEntry heap)) hz,
          show (RefModel.isIgnoredRef msg heap
              (RefModel.Entry.structured r :: rest)).2 =
            (RefModel.isIgnoredRef msg heap rest).2 from
            congrArg Prod.snd (RefModel.isIgnoredRef_zero msg r rest heap hz),
          RefModel.map_deref_cons (RefModel.isIgnoredRef msg heap rest).2
            (RefModel.Entry.structured r) rest,
          RefModel.derefEntry_structured,
          RefModel.isIgnoredRef_frame msg rest heap r.cell hnotin,
          ih heap hnd' hbd']
      · rcases Bool.eq_false_or_eq_true
            (matchesStringOrRegexp msg r.message) with hm | hm
        · rw [isIgnored_match_snd msg ⟨r.message, heap.getD r.cell none,
              r.path, r.paths⟩ (rest.map (RefModel.derefEntry heap)) hz hm]
          by_cases ht : truthyCount (heap.getD r.cell none) = true
          · have hstep : (RefModel.isIgnoredRef msg heap
                (RefModel.Entry.structured r :: rest)).2 =
                heap.set r.cell
                  ((heap.getD r.cell none).map (fun k => k - 1)) := by
              rw [RefModel.isIgnoredRef_match msg r rest heap hz hm,
                if_pos ht]
            rw [hstep, if_pos ht,
              RefModel.map_deref_cons
                (heap.set r.cell
                  ((heap.getD r.cell none).map (fun k => k - 1)))
                (RefModel.Entry.structured r) rest,
              RefModel.derefEntry_structured,
              RefModel.getD_set_self heap r.cell _ hcell_lt,
              RefModel.derefList_congr
                (heap.set r.cell
                  ((heap.getD r.cell none).map (fun k => k - 1)))
                heap rest
                (fun c hc => RefModel.getD_set_ne heap r.cell c _
                  (fun h => hnotin (h ▸ hc)))]
          · have hstep : (RefModel.isIgnoredRef msg heap
                (RefModel.Entry.structured r :: rest)).2 = heap := by
              rw [RefModel.isIgnoredRef_match msg r rest heap hz hm,
                if_neg ht]
            rw [hstep, if_neg ht,
              RefModel.map_deref_cons heap
                (RefModel.Entry.structured r) rest,
              RefModel.derefEntry_structured]
        · rw [isIgnored_nomatch_snd msg ⟨r.message, heap.getD r.cell none,
              r.path, r.paths⟩ (rest.map (RefModel.derefEntry heap)) hz hm,
            show (RefModel.isIgnoredRef msg heap
                (RefModel.Entry.structured r :: rest)).2 =
              (RefModel.isIgnoredRef msg heap rest).2 from
              congrArg Prod.snd
                (RefModel.isIgnoredRef_nomatch msg r rest heap hz hm),
            RefModel.map_deref_cons (RefModel.isIgnoredRef msg heap rest).2
              (RefModel.Entry.structured r) rest,
            RefModel.derefEntry_structured,
            RefModel.isIgnoredRef_frame msg rest heap r.cell hnotin,
            ih heap hnd' hbd']

theorem RefModel.filterLoopRef_cons_snd (w : List RefModel.Entry)
    (heap : RefModel.Heap) (d : Diagnostic) (ds : List Diagnostic) :
    (RefModel.filterLoopRef w heap (d :: ds)).2 =
      (RefModel.filterLoopRef w
        (RefModel.isIgnoredRef d.message heap w).2 ds).2 := rfl

theorem RefModel.filterLoopRef_cons_fst (w : List RefModel.Entry)
    (heap : RefModel.Heap) (d : Diagnostic) (ds : List Diagnostic) :
    (RefModel.filterLoopRef w heap (d :: ds)).1 =
      (if (RefModel.isIgnoredRef d.message heap w).1 then
        (RefModel.filterLoopRef w
          (RefModel.isIgnoredRef d.message heap w).2 ds).1
       else d :: (RefModel.filterLoopRef w
          (RefModel.isIgnoredRef d.message heap w).2 ds).1) := rfl

theorem RefModel.filterLoopRef_length :
    ∀ (D : List Diagnostic) (w : List RefModel.Entry)
      (heap : RefModel.Heap),
    (RefModel.filterLoopRef w heap D).2.length = heap.length := by
  intro D
  induction D with
  | nil => intro w heap; rfl
  | cons d ds ih =>
    intro w heap
    rw [RefModel.filterLoopRef_cons_snd, ih w _]
    exact RefModel.isIgnoredRef_length d.message w heap

theorem RefModel.filterLoopRef_frame :
    ∀ (D : List Diagnostic) (w : List RefModel.Entry)
      (heap : RefModel.Heap) (i : Nat), i ∉ RefModel.cellsOf w →
    (RefModel.filterLoopRef w heap D).2.getD i none = heap.getD i none := by
  intro D
  induction D with
  | nil => intro w heap i _; rfl
  | cons d ds ih =>
    intro w heap i hi
    rw [RefModel.filterLoopRef_cons_snd, ih w _ i hi]
    exact RefModel.isIgnoredRef_frame d.message w heap i hi

theorem RefModel.filterLoopRef_fst :
    ∀ (D : List Diagnostic) (w : List RefModel.Entry)
      (heap : RefModel.Heap),
    (RefModel.cellsOf w).Nodup →
    (∀ c ∈ RefModel.cellsOf w, c < heap.length) →
    (RefModel.filterLoopRef w heap D).1 =
      (filterLoop (w.map (RefModel.derefEntry heap)) D).1 := by
  intro D
  induction D with
  | nil => intro w heap _ _; rfl
  | cons d ds ih =>
    intro w heap hnd hbd
    have hbd2 : ∀ c ∈ RefModel.cellsOf w,
        c < (RefModel.isIgnoredRef d.message heap w).2.length := by
      intro c hc
      rw [RefModel.isIgnoredRef_length]
      exact hbd c hc
    rw [RefModel.filterLoopRef_cons_fst, filterLoop_fst_cons,
      RefModel.isIgnoredRef_fst d.message w heap,
      ih w _ hnd hbd2,
      RefModel.isIgnoredRef_map d.message w heap hnd hbd]

theorem RefModel.copyEntries_structured_eq (heap : RefModel.Heap)
    (r : RefModel.RuleObj) (rest : List RefModel.Entry) :
    RefModel.copyEntries heap (RefModel.Entry.structured r :: rest) =
      ((RefModel.copyEntries (heap ++ [heap.getD r.cell none]) rest).1,
        RefModel.Entry.structured { r with cell := heap.length } ::
          (RefModel.copyEntries (heap ++ [heap.getD r.cell none]) rest).2) :=
  rfl

theorem RefModel.copyEntries_spec :
    ∀ (m : List RefModel.Entry) (heap : RefModel.Heap),
    (∀ c ∈ RefModel.cellsOf m, c < heap.length) →
    heap.length ≤ (RefModel.copyEntries heap m).1.length ∧
    (RefModel.copyEntries heap m).1.take heap.length = heap ∧
    (RefModel.copyEntries heap m).2.map
        (RefModel.derefEntry (RefModel.copyEntries heap m).1) =
      m.map (RefModel.derefEntry heap) ∧
    (RefModel.cellsOf (RefModel.copyEntries heap m).2).Nodup ∧
    (∀ c ∈ RefModel.cellsOf (RefModel.copyEntries heap m).2,
      heap.length ≤ c ∧ c < (RefModel.copyEntries heap m).1.length) := by
  intro m
  induction m with
  | nil =>
    intro heap _
    refine ⟨le_refl _, List.take_length heap, rfl, List.nodup_nil, ?_⟩
    intro c hc
    exact absurd hc (List.not_mem_nil c)
  | cons e rest ih =>
    intro heap hbd
    cases e with
    | plain pm =>
      have hbd' : ∀ c ∈ RefModel.cellsOf rest, c < heap.length :=
        fun c hc => hbd c hc
      obtain ⟨ih1, ih2, ih3, ih4, ih5⟩ := ih heap hbd'
      refine ⟨ih1, ih2, ?_, ih4, ih5⟩
      show (RefModel.Entry.plain pm ::
          (RefModel.copyEntries heap rest).2).map
          (RefModel.derefEntry (RefModel.copyEntries heap rest).1) =
        (RefModel.Entry.plain pm :: rest).map (RefModel.derefEntry heap)
      rw [RefModel.map_deref_cons, RefModel.map_deref_cons,
        RefModel.derefEntry_plain, RefModel.derefEntry_plain, ih3]
    | invalid s =>
      have hbd' : ∀ c ∈ RefModel.cellsOf rest, c < heap.length :=
        fun c hc => hbd c hc
      obtain ⟨ih1, ih2, ih3, ih4, ih5⟩ := ih heap hbd'
      refine ⟨ih1, ih2, ?_, ih4, ih5⟩
      show (RefModel.Entry.invalid s ::
          (RefModel.copyEntries heap rest).2).map
          (RefModel.derefEntry (RefModel.copyEntries heap rest).1) =
        (RefModel.Entry.invalid s :: rest).map (RefModel.derefEntry heap)
      rw [RefModel.map_deref_cons, RefModel.map_deref_cons,
        RefModel.derefEntry_invalid, RefModel.derefEntry_invalid, ih3]
    | undef =>
      have hbd' : ∀ c ∈ RefModel.cellsOf rest, c < heap.length :=
        fun c hc => hbd c hc
      obtain ⟨ih1, ih2, ih3, ih4, ih5⟩ := ih heap hbd'
      refine ⟨ih1, ih2, ?_, ih4, ih5⟩
      show (RefModel.Entry.undef ::
          (RefModel.copyEntries heap rest).2).map
          (RefModel.derefEntry (RefModel.copyEntries heap rest).1) =
        (RefModel.Entry.undef :: rest).map (RefModel.derefEntry heap)
      rw [RefModel.map_deref_cons, RefModel.map_deref_cons,
        RefModel.derefEntry_undef, RefModel.derefEntry_undef, ih3]
    | structured r =>
      have hcell_lt : r.cell < heap.length :=
        hbd r.cell (by
          rw [RefModel.cellsOf_cons_structured]
          exact List.mem_cons_self _ _)
      have hlenh1 : heap.length <
          (heap ++ [heap.getD r.cell none]).length := by
        rw [List.length_append]
        simp
      have hbd' : ∀ c ∈ RefModel.cellsOf rest,
          c < (heap ++ [heap.getD r.cell none]).length := by
        intro c hc
        have : c < heap.length := hbd c (by
          rw [RefModel.cellsOf_cons_structured]
          exact List.mem_cons_of_mem _ hc)
        omega
      obtain ⟨ih1, ih2, ih3, ih4, ih5⟩ :=
        ih (heap ++ [heap.getD r.cell none]) hbd'
      rw [RefModel.copyEntries_structured_eq]
      have hpre : (RefModel.copyEntries
          (heap ++ [heap.getD r.cell none]) rest).1.take heap.length =
          heap := by
        have hmin : heap.length =
            heap.length ⊓ (heap ++ [heap.getD r.cell none]).length := by
          omega
        calc (RefModel.copyEntries
            (heap ++ [heap.getD r.cell none]) rest).1.take heap.length
            = ((RefModel.copyEntries
                (heap ++ [heap.getD r.cell none]) rest).1.take
                  (heap ++ [heap.getD r.cell none]).length).take
                heap.length := by
              rw [List.take_take, ← hmin]
          _ = (heap ++ [heap.getD r.cell none]).take heap.length := by
              rw [ih2]
          _ = heap := List.take_left heap [heap.getD r.cell none]
      have hval : (RefModel.copyEntries
          (heap ++ [heap.getD r.cell none]) rest).1.getD heap.length none =
          heap.getD r.cell none := by
        have h1 := RefModel.getD_take_of_lt
          (RefModel.copyEntries (heap ++ [heap.getD r.cell none]) rest).1
          (heap ++ [heap.getD r.cell none]).length heap.length hlenh1
        rw [ih2] at h1
        exact h1.symm.trans
          (RefModel.getD_concat_length heap (heap.getD r.cell none))
      refine ⟨?_, ?_, ?_, ?_, ?_⟩
      · show heap.length ≤ (RefModel.copyEntries
            (heap ++ [heap.getD r.cell none]) rest).1.length
        omega
      · exact hpre
      · show (RefModel.Entry.structured { r with cell := heap.length } ::
            (RefModel.copyEntries (heap ++ [heap.getD r.cell none]) rest).2).map
            (RefModel.derefEntry (RefModel.copyEntries
              (heap ++ [heap.getD r.cell none]) rest).1) =
          (RefModel.Entry.structured r :: rest).map
            (RefModel.derefEntry heap)
        rw [RefModel.map_deref_cons, RefModel.map_deref_cons,
          RefModel.derefEntry_structured, RefModel.derefEntry_structured,
          ih3]
        have hrest : rest.map (RefModel.derefEntry
            (heap ++ [heap.getD r.cell none])) =
            rest.map (RefModel.derefEntry heap) := by
          apply RefModel.derefList_congr
          intro c hc
          have : c < heap.length := hbd c (by
            rw [RefModel.cellsOf_cons_structured]
            exact List.mem_cons_of_mem _ hc)
          exact RefModel.getD_append_left heap _ c this
        rw [hrest]
        show IgnoreEntry.structured ⟨r.message,
            (RefModel.copyEntries (heap ++ [heap.getD r.cell none])
              rest).1.getD heap.length none, r.path, r.paths⟩ ::
            rest.map (RefModel.derefEntry heap) =
          IgnoreEntry.structured ⟨r.message, heap.getD r.cell none, r.path,
            r.paths⟩ :: rest.map (RefModel.derefEntry heap)
        rw [hval]
      · show (heap.length :: RefModel.cellsOf
            (RefModel.copyEntries (heap ++ [heap.getD r.cell none])
              rest).2).Nodup
        rw [List.nodup_cons]
        refine ⟨?_, ih4⟩
        intro hmem
        have := (ih5 heap.length hmem).1
        omega
      · intro c hc
        have hc' : c = heap.length ∨ c ∈ RefModel.cellsOf
            (RefModel.copyEntries (heap ++ [heap.getD r.cell none])
              rest).2 := by
          have : c ∈ heap.length :: RefModel.cellsOf
              (RefModel.copyEntries (heap ++ [heap.getD r.cell none])
                rest).2 := hc
          exact List.mem_cons.mp this
        rcases hc' with hc' | hc'
        · subst hc'
          refine ⟨le_refl _, ?_⟩
          show heap.length < (RefModel.copyEntries
            (heap ++ [heap.getD r.cell none]) rest).1.length
          omega
        · have := ih5 c hc'
          refine ⟨by omega, ?_⟩
          show c < (RefModel.copyEntries
            (heap ++ [heap.getD r.cell none]) rest).1.length
          exact this.2

theorem RefModel.filterPassRef_eq (heap : RefModel.Heap)
    (cfg : List RefModel.Entry) (p : String) (errors : List Diagnostic) :
    RefModel.filterPassRef heap cfg p errors =
      RefModel.filterLoopRef
        (RefModel.copyEntries heap
          (cfg.filter (RefModel.entryMatchesFileRef p))).2
        (RefModel.copyEntries heap
          (cfg.filter (RefModel.entryMatchesFileRef p))).1
        errors := rfl

theorem RefModel.filterPassRef_core (heap : RefModel.Heap)
    (cfg : List RefModel.Entry) (p : String) (errors : List Diagnostic)
    (hwf : ∀ c ∈ RefModel.cellsOf cfg, c < heap.length) :
    (RefModel.filterPassRef heap cfg p errors).1 =
      filterCore (cfg.map (RefModel.derefEntry heap)) p errors ∧
    (RefModel.filterPassRef heap cfg p errors).2.take heap.length = heap ∧
    heap.length ≤ (RefModel.filterPassRef heap cfg p errors).2.length := by
  have hwm : ∀ c ∈ RefModel.cellsOf
      (cfg.filter (RefModel.entryMatchesFileRef p)), c < heap.length :=
    fun c hc => hwf c (RefModel.cellsOf_filter_subset _ cfg c hc)
  obtain ⟨h1, h2, h3, h4, h5⟩ := RefModel.copyEntries_spec
    (cfg.filter (RefModel.entryMatchesFileRef p)) heap hwm
  rw [RefModel.filterPassRef_eq]
  have hlenF : (RefModel.filterLoopRef
      (RefModel.copyEntries heap
        (cfg.filter (RefModel.entryMatchesFileRef p))).2
      (RefModel.copyEntries heap
        (cfg.filter (RefModel.entryMatchesFileRef p))).1 errors).2.length =
      (RefModel.copyEntries heap
        (cfg.filter (RefModel.entryMatchesFileRef p))).1.length :=
    RefModel.filterLoopRef_length errors _ _
  refine ⟨?_, ?_, ?_⟩
  · rw [RefModel.filterLoopRef_fst errors _ _ h4
      (fun c hc => (h5 c hc).2), h3]
    unfold filterCore
    rw [map_shallowCopy, RefModel.filter_deref_comm]
  · have hagree : ∀ i, i < heap.length →
        (RefModel.filterLoopRef
          (RefModel.copyEntries heap
            (cfg.filter (RefModel.entryMatchesFileRef p))).2
          (RefModel.copyEntries heap
            (cfg.filter (RefModel.entryMatchesFileRef p))).1
          errors).2.getD i none =
        (RefModel.copyEntries heap
          (cfg.filter (RefModel.entryMatchesFileRef p))).1.getD i none := by
      intro i hi
      apply RefModel.filterLoopRef_frame
      intro hmem
      have := (h5 i hmem).1
      omega
    calc (RefModel.filterLoopRef
          (RefModel.copyEntries heap
            (cfg.filter (RefModel.entryMatchesFileRef p))).2
          (RefModel.copyEntries heap
            (cfg.filter (RefModel.entryMatchesFileRef p))).1
          errors).2.take heap.length
        = (RefModel.copyEntries heap
            (cfg.filter (RefModel.entryMatchesFileRef p))).1.take
              heap.length := by
          apply RefModel.take_eq_of_agree _ _ heap.length (by omega) h1
          exact hagree
      _ = heap := h2
  · omega

/-- C6: a filter pass mutates only its own per-call shallow copies of the
rule objects.  After `filterPassRef` returns, the heap cells of the
resolved configuration's rule objects (their `count` fields) are intact —
the original heap is an unchanged prefix of the final heap; the kept
diagnostics are exactly the pure value-level `filterCore` of the
dereferenced configuration; and a second pass over the same configuration,
run on the heap the first pass left behind, returns exactly what it would
have returned on the original heap — a quota consumed in one check pass
never reduces the quota available to a subsequent pass. -/
theorem filterPassRef_preserves_config_counts (heap : RefModel.Heap)
    (cfg : List RefModel.Entry) (originalFilePath : String)
    (errors errors2 : List Diagnostic)
    (hwf : ∀ c ∈ RefModel.cellsOf cfg, c < heap.length) :
    (RefModel.filterPassRef heap cfg originalFilePath errors).2.take
        heap.length = heap ∧
    (RefModel.filterPassRef heap cfg originalFilePath errors).1 =
      filterCore (cfg.map (RefModel.derefEntry heap)) originalFilePath
        errors ∧
    (RefModel.filterPassRef
        (RefModel.filterPassRef heap cfg originalFilePath errors).2 cfg
        originalFilePath errors2).1 =
      (RefModel.filterPassRef heap cfg originalFilePath errors2).1 := by
  obtain ⟨hkept, htake, hlen⟩ :=
    RefModel.filterPassRef_core heap cfg originalFilePath errors hwf
  refine ⟨htake, hkept, ?_⟩
  have hwf2 : ∀ c ∈ RefModel.cellsOf cfg,
      c < (RefModel.filterPassRef heap cfg
        originalFilePath errors).2.length :=
    fun c hc => lt_of_lt_of_le (hwf c hc) hlen
  obtain ⟨hkept2, htake2, hlen2⟩ :=
    RefModel.filterPassRef_core _ cfg originalFilePath errors2 hwf2
  obtain ⟨hkept3, htake3, hlen3⟩ :=
    RefModel.filterPassRef_core heap cfg originalFilePath errors2 hwf
  rw [hkept2, hkept3]
  have hagree : cfg.map (RefModel.derefEntry
      (RefModel.filterPassRef heap cfg originalFilePath errors).2) =
      cfg.map (RefModel.derefEntry heap) := by
    apply RefModel.derefList_congr
    intro c hc
    have hlt : c < heap.length := hwf c hc
    have hpre := RefModel.getD_take_of_lt
      (RefModel.filterPassRef heap cfg originalFilePath errors).2
      heap.length c hlt
    rw [htake] at hpre
    exact hpre.symm
  rw [hagree]

theorem filterPassRef_preserves_config_counts_witness :
    (∀ c ∈ RefModel.cellsOf [RefModel.Entry.structured
        ⟨Matcher.str "dup", 0, none, none⟩],
      c < ([some 1] : RefModel.Heap).length) ∧
    ((RefModel.filterPassRef [some 1]
        [RefModel.Entry.structured ⟨Matcher.str "dup", 0, none, none⟩]
        "f.php" [⟨"dup A", 0⟩, ⟨"dup B", 1⟩]).2.take
        ([some 1] : RefModel.Heap).length = [some 1] ∧
    (RefModel.filterPassRef [some 1]
        [RefModel.Entry.structured ⟨Matcher.str "dup", 0, none, none⟩]
        "f.php" [⟨"dup A", 0⟩, ⟨"dup B", 1⟩]).1 =
      filterCore ([RefModel.Entry.structured
          ⟨Matcher.str "dup", 0, none, none⟩].map
        (RefModel.derefEntry [some 1])) "f.php"
        [⟨"dup A", 0⟩, ⟨"dup B", 1⟩] ∧
    (RefModel.filterPassRef
        (RefModel.filterPassRef [some 1]
          [RefModel.Entry.structured ⟨Matcher.str "dup", 0, none, none⟩]
          "f.php" [⟨"dup A", 0⟩, ⟨"dup B", 1⟩]).2
        [RefModel.Entry.structured ⟨Matcher.str "dup", 0, none, none⟩]
        "f.php" [⟨"dup C", 2⟩]).1 =
      (RefModel.filterPassRef [some 1]
        [RefModel.Entry.structured ⟨Matcher.str "dup", 0, none, none⟩]
        "f.php" [⟨"dup C", 2⟩]).1) :=
  ⟨by decide,
    filterPassRef_preserves_config_counts [some 1]
      [RefModel.Entry.structured ⟨Matcher.str "dup", 0, none, none⟩]
      "f.php" [⟨"dup A", 0⟩, ⟨"dup B", 1⟩] [⟨"dup C", 2⟩] (by decide)⟩

end PhpstanVscode


